import Mathlib

/-!
Verification of the configuration-blacklist engine and the license
callback watcher of the apm-server vendored libbeat management code
(`x-pack/libbeat/management/blacklist.go` and
`x-pack/libbeat/licenser/callback_watcher.go`).

The Go code is shallowly embedded: configuration trees become the
inductive `CNode`, the `ucfg`-backed accessors (`String`, `Child`,
`GetFields`, `CountField`) become total Lean functions on `CNode`, and
the byte-string operations of package `strings` become structural
functions on `String.data` (configuration paths and block types are
ASCII, so character-wise and byte-wise slicing agree).
-/

/-! ## Go string primitives (package `strings`, on ASCII data) -/

/-- Model of `strings.HasPrefix` on the underlying character lists. -/
def listHasPfx : List Char → List Char → Bool
  | _, [] => true
  | [], _ :: _ => false
  | c :: cs, p :: ps => c == p && listHasPfx cs ps

/-- Model of `strings.HasPrefix`. -/
def goHasPfx (s p : String) : Bool :=
  listHasPfx s.data p.data

/-- Model of `strings.Contains(s, string(c))` for a one-character needle. -/
def goContainsChar (s : String) (c : Char) : Bool :=
  s.data.any (fun x => x == c)

/-- Model of the Go slice expression `s[n:]` (ASCII, so bytes = chars). -/
def goDrop (s : String) (n : Nat) : String :=
  String.mk (s.data.drop n)

/-- Model of Go `len(s)` (ASCII, so bytes = chars). -/
def goLen (s : String) : Nat := s.data.length

/-- Accumulator loop of `strings.Split` for a one-character separator. -/
def splitChars (sep : Char) : List Char → List Char → List String
  | acc, [] => [String.mk acc.reverse]
  | acc, c :: cs =>
    if c == sep then String.mk acc.reverse :: splitChars sep [] cs
    else splitChars sep (c :: acc) cs

/-- Model of `strings.Split(s, string(sep))` for a one-character separator. -/
def goSplit (s : String) (sep : Char) : List String :=
  splitChars sep [] s.data

/-! ## Configuration trees (`common.Config` as seen through its accessors) -/

/-- Generic configuration node (`*common.Config`): a dictionary mapping
string keys to children, an array of children, or a scalar already
carried as its string representation (ucfg stringifies primitive
scalars on `String` access). -/
inductive CNode where
  | dict : List (String × CNode) → CNode
  | arr : List CNode → CNode
  | scalar : String → CNode

/-- First-match lookup of a key among the fields of a dictionary node. -/
def getField : List (String × CNode) → String → Option CNode
  | [], _ => none
  | kv :: rest, k => if kv.1 == k then some kv.2 else getField rest k

/-- Model of `current.String(key, -1)` on a dictionary node: succeeds
exactly when the value stored at `key` is a (stringified) scalar. -/
def dictString (fields : List (String × CNode)) (key : String) : Option String :=
  match getField fields key with
  | some (CNode.scalar v) => some v
  | _ => none

/-- Model of `current.Child(key, -1)` on a dictionary node: yields a
sub-configuration exactly when the value stored at `key` is itself a
dictionary or an array (ucfg cannot view a scalar as a `*Config`). -/
def dictChild (fields : List (String × CNode)) (key : String) : Option CNode :=
  match getField fields key with
  | some (CNode.scalar _) => none
  | some c => some c
  | none => none

/-- Model of `current.String("", i)` on an array node. -/
def arrString (elems : List CNode) (i : Nat) : Option String :=
  match elems.get? i with
  | some (CNode.scalar v) => some v
  | _ => none

/-- Model of `current.Child("", i)` on an array node. -/
def arrChild (elems : List CNode) (i : Nat) : Option CNode :=
  match elems.get? i with
  | some (CNode.scalar _) => none
  | some c => some c
  | none => none

/-- Model of `current.GetFields()` on a dictionary node. -/
def GetFields (fields : List (String × CNode)) : List String :=
  fields.map fun kv => kv.1

/-- Model of `current.CountField("")` on an array node. -/
def CountField (elems : List CNode) : Nat := elems.length

/-! ### Size lemmas backing termination of the traversal -/

theorem getField_sizeOf {fields : List (String × CNode)} {k : String} {c : CNode}
    (h : getField fields k = some c) : sizeOf c < sizeOf fields := by
  induction fields with
  | nil => simp [getField] at h
  | cons kv rest ih =>
    obtain ⟨k1, v1⟩ := kv
    simp only [getField] at h
    by_cases hk : (k1 == k) = true
    · simp [hk] at h
      subst h
      simp
      omega
    · simp [hk] at h
      have := ih h
      simp
      omega

theorem dictChild_getField {fields : List (String × CNode)} {k : String} {c : CNode}
    (h : dictChild fields k = some c) : getField fields k = some c := by
  unfold dictChild at h
  cases hg : getField fields k with
  | none => rw [hg] at h; exact absurd h (by simp)
  | some v =>
    rw [hg] at h
    cases v with
    | scalar s => exact absurd h (by simp)
    | dict f => simpa using h
    | arr es => simpa using h

theorem arrChild_mem {elems : List CNode} {i : Nat} {c : CNode}
    (h : arrChild elems i = some c) : c ∈ elems := by
  unfold arrChild at h
  cases hg : elems.get? i with
  | none => rw [hg] at h; exact absurd h (by simp)
  | some v =>
    rw [hg] at h
    have hv : v ∈ elems := List.get?_mem hg
    cases v with
    | scalar s => exact absurd h (by simp)
    | dict f => rw [← Option.some_inj.mp h]; exact hv
    | arr es => rw [← Option.some_inj.mp h]; exact hv

theorem dictChild_sizeOf {fields : List (String × CNode)} {k : String} {c : CNode}
    (h : dictChild fields k = some c) : sizeOf c < sizeOf (CNode.dict fields) := by
  have := getField_sizeOf (dictChild_getField h)
  simp
  omega

theorem mem_sizeOf_lt {c : CNode} {elems : List CNode} (h : c ∈ elems) :
    sizeOf c < sizeOf elems := by
  induction elems with
  | nil => cases h
  | cons e rest ih =>
    rcases List.mem_cons.mp h with rfl | hmem
    · simp; omega
    · have := ih hmem; simp; omega

theorem list_sizeOf_pos {α : Type} [SizeOf α] (l : List α) : 0 < sizeOf l := by
  cases l <;> simp <;> omega

theorem get?_sizeOf {elems : List CNode} {i : Nat} {c : CNode}
    (h : elems.get? i = some c) : sizeOf c < sizeOf elems :=
  mem_sizeOf_lt (List.get?_mem h)

theorem dictChild_sizeOf_lt (fields : List (String × CNode)) (k : String) :
    sizeOf (dictChild fields k) < sizeOf (CNode.dict fields) := by
  unfold dictChild
  cases hg : getField fields k with
  | none =>
    have := list_sizeOf_pos fields
    simp
    omega
  | some c =>
    have hc := getField_sizeOf hg
    cases c with
    | scalar s =>
      have := list_sizeOf_pos fields
      simp
      omega
    | dict f2 => simp at hc ⊢ <;> omega
    | arr es => simp at hc ⊢ <;> omega

theorem arrChild_sizeOf_le (elems : List CNode) (i : Nat) :
    sizeOf (arrChild elems i) ≤ sizeOf elems := by
  unfold arrChild
  cases hg : elems.get? i with
  | none =>
    have := list_sizeOf_pos elems
    simp
    omega
  | some c =>
    have hc := get?_sizeOf hg
    cases c with
    | scalar s =>
      have := list_sizeOf_pos elems
      simp
      omega
    | dict f2 => simp at hc ⊢ <;> omega
    | arr es => simp at hc ⊢ <;> omega

/-! ## The traversal `isBlacklistedBlock` (blacklist.go, lines 120-179)

The Go array branches iterate indices from `CountField("") - 1` down to
`0`; the loops below mirror that count-down shape, with `n` playing the
role of Go's loop variable `count`. The Go idiom
`child != nil && c.isBlacklistedBlock(pattern, segs, child)` — nil-check
the `Child` result, then recurse — is rendered by `recurseChild` applied
to the optional child. -/

mutual

/-- Model of `(*ConfigBlacklist).isBlacklistedBlock`: co-traversal of a
configuration tree and a dotted-path segment list testing terminal
values (or key names) against the pattern. -/
def isBlacklistedBlock (pattern : String → Bool) (segments : List String)
    (current : CNode) : Bool :=
  match current with
  | CNode.dict fields =>
    match segments with
    | [] => (GetFields fields).any (fun f => pattern f)
    | [seg] =>
      match dictString fields seg with
      | some val => pattern val
      | none => recurseChild pattern [] (dictChild fields seg)
    | seg :: rest => recurseChild pattern rest (dictChild fields seg)
  | CNode.arr elems =>
    match segments with
    | [] => arrLoopRoot pattern elems (CountField elems)
    | _ :: _ => arrLoopPath pattern segments elems (CountField elems)
  | CNode.scalar _ => false
termination_by (sizeOf current, 2, 0)
decreasing_by
all_goals simp_wf
· exact Prod.Lex.left _ _ (by have := dictChild_sizeOf_lt fields seg; simp at this; omega)
· exact Prod.Lex.left _ _ (by have := dictChild_sizeOf_lt fields seg; simp at this; omega)
· rw [Nat.add_comm 1 (sizeOf elems)]
  exact Prod.Lex.right _ (Prod.Lex.left _ _ (by omega))
· rw [Nat.add_comm 1 (sizeOf elems)]
  exact Prod.Lex.right _ (Prod.Lex.left _ _ (by omega))

/-- Go `child != nil && c.isBlacklistedBlock(pattern, segments, child)`:
a missing child is a non-match, a present child is recursed into. -/
def recurseChild (pattern : String → Bool) (segments : List String) :
    Option CNode → Bool
  | some child => isBlacklistedBlock pattern segments child
  | none => false
termination_by o => (sizeOf o, 0, 0)
decreasing_by
all_goals simp_wf
· exact Prod.Lex.left _ _ (by omega)

/-- Go loop of the array branch with zero remaining segments: at index
`n - 1`, a string element is tested against the pattern, a container
element is recursed into with the still-empty segment list. -/
def arrLoopRoot (pattern : String → Bool) (elems : List CNode) : Nat → Bool
  | 0 => false
  | n + 1 =>
    (match arrString elems n with
     | some val => pattern val
     | none => false)
    || recurseChild pattern [] (arrChild elems n)
    || arrLoopRoot pattern elems n
termination_by n => (sizeOf elems + 1, 1, n)
decreasing_by
all_goals simp_wf
· exact Prod.Lex.left _ _ (by have := arrChild_sizeOf_le elems n; omega)
· exact Prod.Lex.right _ (Prod.Lex.right _ (by omega))

/-- Go loop of the array branch with remaining segments: traversal
explodes to every element with the same, unconsumed segment list. -/
def arrLoopPath (pattern : String → Bool) (segments : List String)
    (elems : List CNode) : Nat → Bool
  | 0 => false
  | n + 1 =>
    recurseChild pattern segments (arrChild elems n)
    || arrLoopPath pattern segments elems n
termination_by n => (sizeOf elems + 1, 1, n)
decreasing_by
all_goals simp_wf
· exact Prod.Lex.left _ _ (by have := arrChild_sizeOf_le elems n; omega)
· exact Prod.Lex.right _ (Prod.Lex.right _ (by omega))

end
/-! ## Registry and evaluator (blacklist.go, lines 33-117) -/

/-- Model of `match.Matcher`: a compiled pattern exposing
`MatchString : string -> bool`. The regular-expression engine itself is
an opaque collaborator, so a matcher is embedded as its extensional
matching function. -/
abbrev Matcher : Type := String → Bool

/-- Model of `ConfigBlacklist`: the registry mapping dotted field paths
to compiled matchers. Go stores them in a map with unique keys and
order-independent iteration; the embedding keeps the entries as an
association list. -/
structure ConfigBlacklist where
  patterns : List (String × Matcher)

/-- Model of `api.ConfigBlock`: `config` is the outcome of the
`block.ConfigWithMeta()` call made by `isBlacklisted` — `none` when the
raw block cannot be unpacked into the generic representation, otherwise
the parsed configuration tree. -/
structure ConfigBlock where
  config : Option CNode

/-- Model of `api.ConfigBlocksWithType`: a block-type tag together with
the blocks of that type. (`Type` is a Lean keyword, hence `Typ`.) -/
structure ConfigBlocksWithType where
  Typ : String
  Blocks : List ConfigBlock

/-- Model of `api.ConfigBlocks`. -/
abbrev ConfigBlocks : Type := List ConfigBlocksWithType

/-- Model of the `management.ErrorType` constant `ConfigError` used by
`Detect`. -/
inductive ErrorType where
  | configError
deriving DecidableEq

/-- Model of `management.Error` as produced by `Detect`: the error type
tag and the message text of the wrapped `error`.
(`Type` is a Lean keyword, hence `Typ`.) -/
structure MgmtError where
  Typ : ErrorType
  Err : String
deriving DecidableEq

/-- Model of `management.Errors`. -/
abbrev Errors : Type := List MgmtError

/-- ASCII single quote, used by the `Detect` message format string. -/
def quoteChar : String := String.mk [Char.ofNat 39]

/-- Message of the detection recorded by `Detect`:
`fmt.Errorf("Config for qqs is blacklisted", configs.Type)` with the
block-type spliced between single quotes. -/
def blacklistMsg (blockType : String) : String :=
  "Config for " ++ quoteChar ++ blockType ++ quoteChar ++ " is blacklisted"

/-- Model of `(*ConfigBlacklist).isBlacklisted` (lines 92-117): a block
is blacklisted when some registered pattern whose dotted path is owned
by this block type matches the block's configuration tree. A block
whose configuration cannot be read is never blacklisted. -/
def isBlacklisted (c : ConfigBlacklist) (blockType : String) (block : ConfigBlock) : Bool :=
  match block.config with
  | none => false
  | some cfg =>
    c.patterns.any fun fp =>
      let pfx := if goContainsChar fp.1 '.' then blockType ++ "." else blockType
      if goHasPfx fp.1 pfx then
        let field := goDrop fp.1 (goLen pfx)
        let segments := if goLen field > 0 then goSplit field '.' else []
        isBlacklistedBlock fp.2 segments cfg
      else
        false

/-- Model of `(*ConfigBlacklist).Detect` (lines 77-90): the nested
`for` loops appending one `Error` per blacklisted block, embedded as
left folds over the block groups and the blocks of each group. -/
def Detect (c : ConfigBlacklist) (configBlocks : ConfigBlocks) : Errors :=
  configBlocks.foldl
    (fun errs configs =>
      configs.Blocks.foldl
        (fun errs2 block =>
          if isBlacklisted c configs.Typ block then
            errs2 ++ [{ Typ := ErrorType.configError, Err := blacklistMsg configs.Typ }]
          else
            errs2)
        errs)
    []


/-! ## Structural lemmas about the traversal -/

/-- A scalar node never matches: neither `IsDict` nor `IsArray` holds,
so `isBlacklistedBlock` falls through to its final `return false`. -/
theorem scalar_no_match (p : Matcher) (segments : List String) (s : String) :
    isBlacklistedBlock p segments (CNode.scalar s) = false := by
  simp only [isBlacklistedBlock]

/-- The count-down loop of the segments-remaining array branch computes
the disjunction, over the first `n` elements, of re-running the
traversal with the same segment list. -/
theorem arrLoopPath_eq_any (p : Matcher) (segments : List String) (elems : List CNode) :
    ∀ n, arrLoopPath p segments elems n =
      (elems.take n).any (fun e => isBlacklistedBlock p segments e) := by
  intro n
  induction n with
  | zero => simp [arrLoopPath]
  | succ n ihn =>
    rw [arrLoopPath, ihn, List.take_succ, List.any_append]
    cases hg : elems[n]? with
    | none => simp [recurseChild, arrChild, List.get?_eq_getElem?, hg, Bool.or_comm]
    | some e =>
      cases e with
      | scalar s =>
        simp [recurseChild, arrChild, List.get?_eq_getElem?, hg, scalar_no_match,
          Bool.or_comm]
      | dict f2 => simp [recurseChild, arrChild, List.get?_eq_getElem?, hg, Bool.or_comm]
      | arr es => simp [recurseChild, arrChild, List.get?_eq_getElem?, hg, Bool.or_comm]

/-- C2: at a dictionary node with exactly one remaining path segment, a
string-representable value at that key is tested directly against the
pattern; a container value is recursed into with the segment list minus
its head (the empty list); an absent key is no match. -/
theorem c2_dict_one_segment (p : Matcher) (seg : String) (fields : List (String × CNode)) :
    isBlacklistedBlock p [seg] (CNode.dict fields) =
      (match getField fields seg with
       | some (CNode.scalar v) => p v
       | some (CNode.dict f2) => isBlacklistedBlock p ([seg].tail) (CNode.dict f2)
       | some (CNode.arr es) => isBlacklistedBlock p ([seg].tail) (CNode.arr es)
       | none => false) := by
  rw [isBlacklistedBlock]
  cases hg : getField fields seg with
  | none => simp [dictString, dictChild, recurseChild, hg]
  | some c => cases c <;> simp [dictString, dictChild, recurseChild, hg]

/-- C3: at an array node with one or more remaining path segments, the
result is the disjunction over every element of recursing with the
same, unconsumed segment list; any single matching element suffices. -/
theorem c3_array_fanout (p : Matcher) (s : String) (rest : List String) (elems : List CNode) :
    isBlacklistedBlock p (s :: rest) (CNode.arr elems) =
      elems.any (fun e => isBlacklistedBlock p (s :: rest) e) := by
  rw [isBlacklistedBlock]
  rw [arrLoopPath_eq_any]
  simp [CountField]

/-- C4: at a dictionary node with zero remaining path segments, the
traversal matches exactly when the pattern matches some key name of the
dictionary, independently of the values stored at those keys. -/
theorem c4_dict_zero_segments (p : Matcher) (fields : List (String × CNode)) :
    isBlacklistedBlock p [] (CNode.dict fields) = true ↔
      ∃ kv ∈ fields, p kv.1 = true := by
  rw [isBlacklistedBlock]
  simp [GetFields, List.any_eq_true]

/-! ## Which entries apply to a block (C1) -/

/-- Condition under which `isBlacklisted` applies a registered entry to
a block (blacklist.go, lines 99-103): the raw path must start with the
block-type, where the trailing dot is appended to the required prefix
only when the path contains a dot somewhere. -/
def entryApplies (blockType field : String) : Bool :=
  goHasPfx field (if goContainsChar field '.' then blockType ++ "." else blockType)

/-- Remaining dotted-path segments handed to the traversal once the
computed prefix has been stripped (blacklist.go, lines 104-109). -/
def blacklistSegments (blockType field : String) : List String :=
  let pfx := if goContainsChar field '.' then blockType ++ "." else blockType
  let f := goDrop field (goLen pfx)
  if goLen f > 0 then goSplit f '.' else []

/-- C1 (amended): an entry is applied to a block exactly when its path
starts with the block-type followed by a dot if the path is dotted, and
starts with the block-type as a raw character prefix (not necessarily at
a dotted boundary) if the path is dotless; an entry failing this test
contributes nothing, whatever the block contents. -/
theorem c1_entry_application (ps : List (String × Matcher)) (blockType : String) (cfg : CNode) :
    isBlacklisted ⟨ps⟩ blockType ⟨some cfg⟩ =
      ps.any (fun fp =>
        entryApplies blockType fp.1 &&
          isBlacklistedBlock fp.2 (blacklistSegments blockType fp.1) cfg) := by
  unfold isBlacklisted
  change ps.any _ = ps.any _
  congr 1
  funext fp
  unfold entryApplies blacklistSegments
  by_cases h : goHasPfx fp.1
      (if goContainsChar fp.1 '.' then blockType ++ "." else blockType) = true
  · simp [h]
  · simp [h]

/-- C1 fails on the code: the dotless path `"filebeat"` is neither equal
to the block-type `"file"` nor an extension of `"file."`, yet the entry
is applied to a `"file"` block and yields a detection. -/
theorem c1_counterexample :
    (("filebeat" == "file") = false
      ∧ goHasPfx "filebeat" ("file" ++ ".") = false)
    ∧ isBlacklisted ⟨[("filebeat", fun s => s == "secret")]⟩ "file"
        ⟨some (CNode.dict [("beat", CNode.scalar "secret")])⟩ = true
    ∧ Detect ⟨[("filebeat", fun s => s == "secret")]⟩
        [⟨"file", [⟨some (CNode.dict [("beat", CNode.scalar "secret")])⟩]⟩]
      = [⟨ErrorType.configError, blacklistMsg "file"⟩] := by
  refine ⟨⟨by decide, by decide⟩, ?_, ?_⟩
  · simp +decide [isBlacklisted, isBlacklistedBlock, recurseChild, arrLoopRoot,
      arrLoopPath, dictString, dictChild, getField, arrString, arrChild, GetFields,
      CountField, goHasPfx, goContainsChar, goDrop, goLen, goSplit, splitChars,
      listHasPfx]
  · simp +decide [Detect, isBlacklisted, isBlacklistedBlock, recurseChild,
      arrLoopRoot, arrLoopPath, dictString, dictChild, getField, arrString,
      arrChild, GetFields, CountField, goHasPfx, goContainsChar, goDrop, goLen,
      goSplit, splitChars, listHasPfx]

/-! ## Shape of the detection sequence (C5, C6) -/

/-- The detection `Detect` records for a block of type `blockType`. -/
def blacklistDetection (blockType : String) : MgmtError :=
  { Typ := ErrorType.configError, Err := blacklistMsg blockType }

theorem detect_inner_foldl (P : ConfigBlock → Bool) (x : MgmtError) :
    ∀ (blocks : List ConfigBlock) (errs : Errors),
      blocks.foldl (fun e b => if P b then e ++ [x] else e) errs
        = errs ++ (blocks.filter P).map (fun _ => x) := by
  intro blocks
  induction blocks with
  | nil => intro errs; simp
  | cons b rest ih =>
    intro errs
    simp only [List.foldl_cons]
    by_cases h : P b = true
    · rw [ih, List.filter_cons_of_pos h]
      simp [h]
    · rw [ih, List.filter_cons_of_neg (by simp [h])]
      simp [h]

theorem detect_outer_foldl (c : ConfigBlacklist) :
    ∀ (groups : ConfigBlocks) (errs : Errors),
      groups.foldl
        (fun errs2 g => g.Blocks.foldl
          (fun e b => if isBlacklisted c g.Typ b then e ++ [blacklistDetection g.Typ] else e)
          errs2)
        errs
      = errs ++ groups.flatMap (fun g =>
          (g.Blocks.filter (fun b => isBlacklisted c g.Typ b)).map
            (fun _ => blacklistDetection g.Typ)) := by
  intro groups
  induction groups with
  | nil => intro errs; simp
  | cons g rest ih =>
    intro errs
    simp only [List.foldl_cons]
    rw [detect_inner_foldl, ih, List.flatMap_cons, List.append_assoc]

/-- Per-group, per-block characterization of `Detect`: each block
contributes the single fixed detection for its group's type when it is
blacklisted, and nothing otherwise. -/
theorem detect_eq_flatMap (c : ConfigBlacklist) (groups : ConfigBlocks) :
    Detect c groups
      = groups.flatMap (fun g =>
          (g.Blocks.filter (fun b => isBlacklisted c g.Typ b)).map
            (fun _ => blacklistDetection g.Typ)) := by
  unfold Detect
  rw [show (fun (errs : Errors) (configs : ConfigBlocksWithType) =>
        configs.Blocks.foldl
          (fun errs2 block =>
            if isBlacklisted c configs.Typ block then
              errs2 ++ [{ Typ := ErrorType.configError, Err := blacklistMsg configs.Typ }]
            else errs2)
          errs)
      = (fun (errs2 : Errors) (g : ConfigBlocksWithType) => g.Blocks.foldl
          (fun e b => if isBlacklisted c g.Typ b then e ++ [blacklistDetection g.Typ] else e)
          errs2) from rfl]
  rw [detect_outer_foldl]
  simp

/-- C5: the detection sequence is exactly one fixed detection (the
config-error classification with the message naming the block-type) per
blacklisted block, so each block contributes at most one detection; its
length equals the number of blacklisted blocks. -/
theorem c5_one_detection_per_block (c : ConfigBlacklist) (groups : ConfigBlocks) :
    Detect c groups
      = groups.flatMap (fun g =>
          (g.Blocks.filter (fun b => isBlacklisted c g.Typ b)).map
            (fun _ => blacklistDetection g.Typ))
    ∧ (Detect c groups).length
      = (groups.flatMap (fun g =>
          g.Blocks.filter (fun b => isBlacklisted c g.Typ b))).length := by
  refine ⟨detect_eq_flatMap c groups, ?_⟩
  rw [detect_eq_flatMap]
  induction groups with
  | nil => rfl
  | cons g rest ih =>
    simp only [List.flatMap_cons, List.length_append, List.length_map, ih]

theorem filter_blacklisted_isSome (c : ConfigBlacklist) (ty : String) :
    ∀ blocks : List ConfigBlock,
      (blocks.filter (fun b => b.config.isSome)).filter (fun b => isBlacklisted c ty b)
        = blocks.filter (fun b => isBlacklisted c ty b) := by
  intro blocks
  induction blocks with
  | nil => rfl
  | cons b rest ih =>
    obtain ⟨cfgopt⟩ := b
    cases cfgopt with
    | none =>
      have hb : isBlacklisted c ty ⟨none⟩ = false := rfl
      simp [List.filter_cons, hb, ih]
    | some t => simp [List.filter_cons, ih]

/-- C6: a block whose configuration cannot be read is never blacklisted
and contributes no detection, and dropping all such blocks leaves the
detection sequence unchanged; `Detect` is total, so it always returns a
(possibly empty) sequence. -/
theorem c6_malformed_block_ignored (c : ConfigBlacklist) (bt : String) (groups : ConfigBlocks) :
    isBlacklisted c bt ⟨none⟩ = false
    ∧ Detect c groups
        = Detect c (groups.map (fun g => ⟨g.Typ, g.Blocks.filter (fun b => b.config.isSome)⟩)) := by
  constructor
  · rfl
  · rw [detect_eq_flatMap, detect_eq_flatMap, List.flatMap_map]
    congr 1
    funext g
    simp [filter_blacklisted_isSome c g.Typ g.Blocks]

/-! ## Registry construction (blacklist.go, lines 38-74) -/

/-- Model of `ConfigBlacklistSettings`: the flattened mapping from
dotted field path to pattern string (Go map, embedded as an
association list with unique keys). -/
structure ConfigBlacklistSettings where
  Patterns : List (String × String)

/-- Message produced by `errors.Wrap(err, msg)`: the wrapping message
followed by a colon, a space and the wrapped error text. -/
def errorsWrap (err msg : String) : String := msg ++ ": " ++ err

/-- Message prefix of the compilation failure reported by
`NewConfigBlacklist`. -/
def invalidRegexpMsg (pattern : String) : String :=
  "Given expression is not a valid regexp: " ++ pattern

/-- Iteration of `NewConfigBlacklist` over the settings entries:
compile each pattern, accumulate `(field, matcher)` pairs, abort with
the wrapped error on the first compilation failure. The pattern
compiler `compile` (`match.Compile`) is an opaque collaborator and is
passed as a parameter. -/
def newBlacklistLoop (compile : String → Except String Matcher) :
    List (String × String) → List (String × Matcher) →
      Except String (List (String × Matcher))
  | [], acc => Except.ok acc
  | fp :: rest, acc =>
    match compile fp.2 with
    | Except.error e => Except.error (errorsWrap e (invalidRegexpMsg fp.2))
    | Except.ok exp => newBlacklistLoop compile rest (acc ++ [(fp.1, exp)])

/-- Model of `NewConfigBlacklist`: build the registry from the settings
by compiling every pattern, all-or-nothing. -/
def NewConfigBlacklist (compile : String → Except String Matcher)
    (cfg : ConfigBlacklistSettings) : Except String ConfigBlacklist :=
  (newBlacklistLoop compile cfg.Patterns []).map (fun ps => { patterns := ps })

theorem newBlacklistLoop_ok (compile : String → Except String Matcher) :
    ∀ (l : List (String × String)) (acc : List (String × Matcher)),
      (∀ fp ∈ l, ∃ m, compile fp.2 = Except.ok m) →
      ∃ ps, newBlacklistLoop compile l acc = Except.ok (acc ++ ps)
        ∧ List.Forall₂ (fun fp pm => pm.1 = fp.1 ∧ compile fp.2 = Except.ok pm.2) l ps := by
  intro l
  induction l with
  | nil =>
    intro acc _
    exact ⟨[], by simp [newBlacklistLoop], List.Forall₂.nil⟩
  | cons fp rest ih =>
    intro acc hall
    obtain ⟨m, hm⟩ := hall fp (List.mem_cons_self fp rest)
    obtain ⟨ps, hps, hf⟩ := ih (acc ++ [(fp.1, m)])
      (fun q hq => hall q (List.mem_cons_of_mem fp hq))
    refine ⟨(fp.1, m) :: ps, ?_, List.Forall₂.cons ⟨rfl, hm⟩ hf⟩
    rw [newBlacklistLoop, hm]
    show newBlacklistLoop compile rest (acc ++ [(fp.1, m)]) = _
    rw [hps, List.append_assoc]
    rfl

theorem newBlacklistLoop_err (compile : String → Except String Matcher) :
    ∀ (l : List (String × String)),
      (∃ fp ∈ l, ∀ m, compile fp.2 ≠ Except.ok m) →
      ∃ fp e, fp ∈ l ∧ compile fp.2 = Except.error e
        ∧ ∀ acc, newBlacklistLoop compile l acc
            = Except.error (errorsWrap e (invalidRegexpMsg fp.2)) := by
  intro l
  induction l with
  | nil => rintro ⟨fp, hfp, _⟩; cases hfp
  | cons q rest ih =>
    rintro ⟨fp, hfp, hbad⟩
    cases hc : compile q.2 with
    | error e =>
      exact ⟨q, e, List.mem_cons_self q rest, hc,
        fun acc => by rw [newBlacklistLoop, hc]⟩
    | ok m =>
      have hfp2 : fp ∈ rest := by
        rcases List.mem_cons.mp hfp with rfl | hmem
        · exact absurd hc (hbad m)
        · exact hmem
      obtain ⟨fp2, e, hmem2, he, hloop⟩ := ih ⟨fp, hfp2, hbad⟩
      refine ⟨fp2, e, List.mem_cons_of_mem q hmem2, he, fun acc => ?_⟩
      rw [newBlacklistLoop, hc]
      show newBlacklistLoop compile rest (acc ++ [(q.1, m)]) = _
      exact hloop _

/-- C7: registry construction is all-or-nothing. If every pattern
compiles, the registry holds exactly one compiled matcher per input
entry under the same path key (`Forall₂` pairs each settings entry with
its registry entry); if any pattern fails to compile, construction
returns no registry but an error wrapping the compiler error and the
offending pattern. -/
theorem c7_new_blacklist_all_or_nothing (compile : String → Except String Matcher)
    (cfg : ConfigBlacklistSettings) :
    ((∀ fp ∈ cfg.Patterns, ∃ m, compile fp.2 = Except.ok m) →
      ∃ r, NewConfigBlacklist compile cfg = Except.ok r
        ∧ List.Forall₂ (fun fp pm => pm.1 = fp.1 ∧ compile fp.2 = Except.ok pm.2)
            cfg.Patterns r.patterns)
    ∧ ((∃ fp ∈ cfg.Patterns, ∀ m, compile fp.2 ≠ Except.ok m) →
      ∃ fp e, fp ∈ cfg.Patterns ∧ compile fp.2 = Except.error e
        ∧ NewConfigBlacklist compile cfg
            = Except.error (errorsWrap e (invalidRegexpMsg fp.2))) := by
  constructor
  · intro hall
    obtain ⟨ps, hps, hf⟩ := newBlacklistLoop_ok compile cfg.Patterns [] hall
    refine ⟨{ patterns := ps }, ?_, hf⟩
    unfold NewConfigBlacklist
    rw [hps]
    rfl
  · rintro ⟨fp, hfp, hbad⟩
    obtain ⟨fp2, e, hmem, he, hloop⟩ := newBlacklistLoop_err compile cfg.Patterns ⟨fp, hfp, hbad⟩
    refine ⟨fp2, e, hmem, he, ?_⟩
    unfold NewConfigBlacklist
    rw [hloop []]
    rfl

/-- Compiler stub accepting every pattern, used to instantiate the
construction theorem at a concrete input. -/
def compileOkStub : String → Except String Matcher :=
  fun _ => Except.ok (fun _ => false)

/-- Compiler stub rejecting every pattern, used to instantiate the
construction theorem at a concrete input. -/
def compileFailStub : String → Except String Matcher :=
  fun _ => Except.error "missing closing bracket"

/-- Witness for C7 at concrete settings: a one-entry mapping whose
pattern compiles, and a one-entry mapping whose pattern does not. -/
theorem c7_witness :
    (∃ r, NewConfigBlacklist compileOkStub { Patterns := [("apm-server.x", "ab")] }
        = Except.ok r
      ∧ List.Forall₂ (fun fp pm => pm.1 = fp.1 ∧ compileOkStub fp.2 = Except.ok pm.2)
          [("apm-server.x", "ab")] r.patterns)
    ∧ (∃ fp e, fp ∈ [("apm-server.y", "[")]
        ∧ compileFailStub fp.2 = Except.error e
        ∧ NewConfigBlacklist compileFailStub { Patterns := [("apm-server.y", "[")] }
            = Except.error (errorsWrap e (invalidRegexpMsg fp.2))) :=
  ⟨(c7_new_blacklist_all_or_nothing compileOkStub { Patterns := [("apm-server.x", "ab")] }).1
      (fun _ _ => ⟨fun _ => false, rfl⟩),
   (c7_new_blacklist_all_or_nothing compileFailStub { Patterns := [("apm-server.y", "[")] }).2
      ⟨("apm-server.y", "["), List.mem_cons_self _ _, fun _ h => Except.noConfusion h⟩⟩

/-! ## Depth-bounded rendering of the traversal (C8) -/

mutual

/-- Depth of a configuration node: number of tree levels. -/
def depthNode : CNode → Nat
  | CNode.dict fields => 1 + depthFields fields
  | CNode.arr elems => 1 + depthElems elems
  | CNode.scalar _ => 1

/-- Largest depth among the values of a dictionary. -/
def depthFields : List (String × CNode) → Nat
  | [] => 0
  | (_, v) :: rest => max (depthNode v) (depthFields rest)

/-- Largest depth among the elements of an array. -/
def depthElems : List CNode → Nat
  | [] => 0
  | c :: rest => max (depthNode c) (depthElems rest)

end

theorem depthNode_pos (c : CNode) : 1 ≤ depthNode c := by
  cases c <;> simp [depthNode] <;> omega

theorem getField_depth {fields : List (String × CNode)} {k : String} {c : CNode}
    (h : getField fields k = some c) : depthNode c ≤ depthFields fields := by
  induction fields with
  | nil => simp [getField] at h
  | cons kv rest ih =>
    obtain ⟨k1, v1⟩ := kv
    simp only [getField] at h
    by_cases hk : (k1 == k) = true
    · simp [hk] at h
      subst h
      simp [depthFields] <;> omega
    · simp [hk] at h
      have := ih h
      simp [depthFields] <;> omega

theorem mem_depth {c : CNode} {elems : List CNode} (h : c ∈ elems) :
    depthNode c ≤ depthElems elems := by
  induction elems with
  | nil => cases h
  | cons e rest ih =>
    rcases List.mem_cons.mp h with rfl | hmem
    · simp [depthElems] <;> omega
    · have := ih hmem; simp [depthElems] <;> omega

theorem dictChild_depth {fields : List (String × CNode)} {k : String} {c : CNode}
    (h : dictChild fields k = some c) :
    depthNode c < depthNode (CNode.dict fields) := by
  have := getField_depth (dictChild_getField h)
  simp [depthNode]
  omega

theorem arrChild_depth {elems : List CNode} {i : Nat} {c : CNode}
    (h : arrChild elems i = some c) :
    depthNode c < depthNode (CNode.arr elems) := by
  have := mem_depth (arrChild_mem h)
  simp [depthNode]
  omega

/-- Disjunction on fuel-limited results: defined only when both sides
are defined. -/
def obor : Option Bool → Option Bool → Option Bool
  | some a, some b => some (a || b)
  | _, _ => none

mutual

/-- Fuel-limited rendering of `isBlacklistedBlock`: one unit of fuel is
spent per tree level, `none` meaning the recursion-depth budget was
exhausted. Used to show the recursion depth of the traversal is bounded
by the depth of the configuration tree. -/
def isBlacklistedBlockF (pattern : String → Bool) (segments : List String)
    (current : CNode) : Nat → Option Bool
  | 0 => none
  | fuel + 1 =>
    match current with
    | CNode.dict fields =>
      match segments with
      | [] => some ((GetFields fields).any (fun f => pattern f))
      | [seg] =>
        match dictString fields seg with
        | some val => some (pattern val)
        | none => recurseChildF pattern [] (dictChild fields seg) fuel
      | seg :: rest => recurseChildF pattern rest (dictChild fields seg) fuel
    | CNode.arr elems =>
      match segments with
      | [] => arrLoopRootF pattern elems (CountField elems) fuel
      | _ :: _ => arrLoopPathF pattern segments elems (CountField elems) fuel
    | CNode.scalar _ => some false
termination_by fuel => (fuel, 0, 0)

/-- Fuel-limited rendering of `recurseChild`. -/
def recurseChildF (pattern : String → Bool) (segments : List String) :
    Option CNode → Nat → Option Bool
  | some child, fuel => isBlacklistedBlockF pattern segments child fuel
  | none, _ => some false
termination_by _ fuel => (fuel, 0, 1)

/-- Fuel-limited rendering of `arrLoopRoot`. -/
def arrLoopRootF (pattern : String → Bool) (elems : List CNode) :
    Nat → Nat → Option Bool
  | 0, _ => some false
  | n + 1, fuel =>
    obor
      (match arrString elems n with
       | some val => some (pattern val)
       | none => some false)
      (obor (recurseChildF pattern [] (arrChild elems n) fuel)
        (arrLoopRootF pattern elems n fuel))
termination_by n fuel => (fuel, 1, n)

/-- Fuel-limited rendering of `arrLoopPath`. -/
def arrLoopPathF (pattern : String → Bool) (segments : List String)
    (elems : List CNode) : Nat → Nat → Option Bool
  | 0, _ => some false
  | n + 1, fuel =>
    obor (recurseChildF pattern segments (arrChild elems n) fuel)
      (arrLoopPathF pattern segments elems n fuel)
termination_by n fuel => (fuel, 1, n)

end

theorem arrLoopPathF_complete (p : Matcher) (segs : List String) (fuel : Nat)
    (hag : ∀ segs2 c, depthNode c ≤ fuel →
        isBlacklistedBlockF p segs2 c fuel = some (isBlacklistedBlock p segs2 c))
    (elems : List CNode) (hch : ∀ c ∈ elems, depthNode c ≤ fuel) :
    ∀ n, arrLoopPathF p segs elems n fuel = some (arrLoopPath p segs elems n) := by
  intro n
  induction n with
  | zero => rw [arrLoopPathF, arrLoopPath]
  | succ n ihn =>
    rw [arrLoopPathF, arrLoopPath, ihn]
    cases hc : arrChild elems n with
    | none => simp [recurseChildF, recurseChild, hc, obor]
    | some child =>
      have hthis := hag segs child (hch child (arrChild_mem hc))
      simp [recurseChildF, recurseChild, hc, hthis, obor]

theorem arrLoopRootF_complete (p : Matcher) (fuel : Nat)
    (hag : ∀ segs2 c, depthNode c ≤ fuel →
        isBlacklistedBlockF p segs2 c fuel = some (isBlacklistedBlock p segs2 c))
    (elems : List CNode) (hch : ∀ c ∈ elems, depthNode c ≤ fuel) :
    ∀ n, arrLoopRootF p elems n fuel = some (arrLoopRoot p elems n) := by
  intro n
  induction n with
  | zero => rw [arrLoopRootF, arrLoopRoot]
  | succ n ihn =>
    rw [arrLoopRootF, arrLoopRoot, ihn]
    cases hc : arrChild elems n with
    | none =>
      cases hs : arrString elems n with
      | none => simp [recurseChildF, recurseChild, hc, hs, obor]
      | some val => simp [recurseChildF, recurseChild, hc, hs, obor]
    | some child =>
      have hthis := hag [] child (hch child (arrChild_mem hc))
      cases hs : arrString elems n with
      | none => simp [recurseChildF, recurseChild, hc, hs, hthis, obor, Bool.or_assoc]
      | some val => simp [recurseChildF, recurseChild, hc, hs, hthis, obor, Bool.or_assoc]

theorem blockF_complete :
    ∀ fuel (p : Matcher) (segments : List String) (current : CNode),
      depthNode current ≤ fuel →
      isBlacklistedBlockF p segments current fuel
        = some (isBlacklistedBlock p segments current) := by
  intro fuel
  induction fuel using Nat.strong_induction_on with
  | _ fuel ih =>
    intro p segments current hd
    cases fuel with
    | zero => exact absurd hd (by have := depthNode_pos current; omega)
    | succ fuel =>
      have hag : ∀ segs2 c, depthNode c ≤ fuel →
          isBlacklistedBlockF p segs2 c fuel = some (isBlacklistedBlock p segs2 c) :=
        fun segs2 c hc => ih fuel (Nat.lt_succ_self fuel) p segs2 c hc
      cases current with
      | scalar s => rw [isBlacklistedBlockF, isBlacklistedBlock]
      | dict fields =>
        cases segments with
        | nil => rw [isBlacklistedBlockF, isBlacklistedBlock]
        | cons seg rest =>
          have hchild : ∀ segs2 child, dictChild fields seg = some child →
              recurseChildF p segs2 (some child) fuel
                = some (recurseChild p segs2 (some child)) := by
            intro segs2 child hc
            have hdc : depthNode child ≤ fuel := by
              have h1 := dictChild_depth hc
              simp [depthNode] at h1
              simp [depthNode] at hd
              omega
            simp only [recurseChildF, recurseChild]
            exact hag segs2 child hdc
          cases rest with
          | nil =>
            rw [isBlacklistedBlockF, isBlacklistedBlock]
            cases hs : dictString fields seg with
            | some val => simp [hs]
            | none =>
              simp only [hs]
              cases hc : dictChild fields seg with
              | none => simp [hc, recurseChildF, recurseChild]
              | some child => exact hchild [] child hc
          | cons s2 rest2 =>
            have e1 : isBlacklistedBlockF p (seg :: s2 :: rest2) (CNode.dict fields) (fuel + 1)
                = recurseChildF p (s2 :: rest2) (dictChild fields seg) fuel := by
              rw [isBlacklistedBlockF] <;> simp
            have e2 : isBlacklistedBlock p (seg :: s2 :: rest2) (CNode.dict fields)
                = recurseChild p (s2 :: rest2) (dictChild fields seg) := by
              rw [isBlacklistedBlock] <;> simp
            rw [e1, e2]
            cases hc : dictChild fields seg with
            | none => simp [hc, recurseChildF, recurseChild]
            | some child => exact hchild (s2 :: rest2) child hc
      | arr elems =>
        have hch : ∀ c ∈ elems, depthNode c ≤ fuel := by
          intro c hmem
          have := mem_depth hmem
          simp [depthNode] at hd
          omega
        cases segments with
        | nil =>
          rw [isBlacklistedBlockF, isBlacklistedBlock]
          exact arrLoopRootF_complete p fuel hag elems hch (CountField elems)
        | cons seg rest =>
          rw [isBlacklistedBlockF, isBlacklistedBlock]
          exact arrLoopPathF_complete p (seg :: rest) fuel hag elems hch (CountField elems)

/-- C8: the recursive traversal terminates on every finite
configuration tree with recursion depth bounded by the tree depth: the
fuel-limited rendering run with fuel equal to the depth of the
caller-supplied tree never exhausts its budget and computes exactly the
traversal's verdict. -/
theorem c8_traversal_depth_bounded (p : Matcher) (segments : List String) (current : CNode) :
    isBlacklistedBlockF p segments current (depthNode current)
      = some (isBlacklistedBlock p segments current) :=
  blockF_complete (depthNode current) p segments current (Nat.le_refl _)

/-! ## Settings unpacking (blacklist.go, lines 42-56) -/

/-- Value inside a serialized settings document handed to `Unpack`:
either a string leaf or a nested string-keyed map. -/
inductive SettingVal where
  | str : String → SettingVal
  | map : List (String × SettingVal) → SettingVal

/-- Dynamic value handed to `Unpack` as `interface\x7b\x7d`: either a
string-keyed map (the only shape the type assertion accepts) or
anything else. -/
inductive UnpackInput where
  | strMap : List (String × SettingVal) → UnpackInput
  | notMap : UnpackInput

/-- Modelled from the spec: `common.MapStr.Flatten` is not part of the
extracted sources. Per the spec, flattening turns a nested settings
document into a mapping from dotted field path to leaf value, e.g.
`\x7ba: \x7bb: "x.*"\x7d\x7d` flattens to the single key `"a.b"`. -/
def Flatten : List (String × SettingVal) → List (String × SettingVal)
  | [] => []
  | (k, SettingVal.str s) :: rest => (k, SettingVal.str s) :: Flatten rest
  | (k, SettingVal.map m) :: rest =>
      (Flatten m).map (fun kv => (k ++ "." ++ kv.1, kv.2)) ++ Flatten rest

/-- Model of `fmt.Sprintf("%s", v)` on flattened leaf values. -/
def sprintVal : SettingVal → String
  | SettingVal.str s => s
  | SettingVal.map _ => ""

/-- Model of `(*ConfigBlacklistSettings).Unpack`: the method mutates its
receiver, so the embedding returns the updated settings paired with the
optional error message; an error leaves the receiver untouched. -/
def Unpack (f : ConfigBlacklistSettings) (v : UnpackInput) :
    ConfigBlacklistSettings × Option String :=
  match v with
  | UnpackInput.notMap => (f, some "wrong type, map is expected")
  | UnpackInput.strMap m =>
      ({ Patterns := (Flatten m).map (fun kv => (kv.1, sprintVal kv.2)) }, none)

/-- C9: `Unpack` fails exactly when the input is not a string-keyed
map, in which case the stored patterns are untouched; on success the
patterns are replaced by the flattened mapping with every value
converted to its string representation. -/
theorem c9_unpack (f : ConfigBlacklistSettings) (v : UnpackInput) :
    ((Unpack f v).2.isSome ↔ v = UnpackInput.notMap)
    ∧ (v = UnpackInput.notMap → (Unpack f v).1 = f)
    ∧ (∀ m, v = UnpackInput.strMap m →
        (Unpack f v).1.Patterns
          = (Flatten m).map (fun kv => (kv.1, sprintVal kv.2))) := by
  cases v with
  | notMap => exact ⟨by simp [Unpack], fun _ => rfl, fun m hm => by cases hm⟩
  | strMap m =>
    refine ⟨by simp [Unpack], ?_, ?_⟩
    · intro h
      cases h
    · intro m2 hm
      cases hm
      rfl

/-- Witness for C9: a settings value holding one pattern, unpacked from
a non-map input (patterns untouched) and from a nested map (patterns
replaced by the flattened, stringified mapping). -/
theorem c9_witness :
    (Unpack { Patterns := [("old", "p")] } UnpackInput.notMap).1
        = { Patterns := [("old", "p")] }
    ∧ (Unpack { Patterns := [("old", "p")] }
        (UnpackInput.strMap
          [("a", SettingVal.map [("b", SettingVal.str "x.*")])])).1.Patterns
      = [("a.b", "x.*")] := by
  constructor
  · exact (c9_unpack { Patterns := [("old", "p")] } UnpackInput.notMap).2.1 rfl
  · rw [(c9_unpack { Patterns := [("old", "p")] }
      (UnpackInput.strMap [("a", SettingVal.map [("b", SettingVal.str "x.*")])])).2.2
      [("a", SettingVal.map [("b", SettingVal.str "x.*")])] rfl]
    simp [Flatten, sprintVal]

/-! ## License callback watcher (callback_watcher.go) -/

/-- Model of `licenser.License`: opaque payload forwarded to the `New`
callback; its fields are irrelevant to the watcher. -/
structure License where
  uid : String

/-- Model of `licenser.CallbackWatcher`: optional function pointers,
`none` standing for a nil Go func value. The side effect a Go callback
may have is embedded as a state transformation over an arbitrary state
type `S`. -/
structure CallbackWatcher (S : Type) where
  New : Option (License → S → S)
  Stopped : Option (S → S)

/-- Model of `(*CallbackWatcher).OnNewLicense`: dispatch to the `New`
callback when it is set, do nothing otherwise. -/
def OnNewLicense {S : Type} (cb : CallbackWatcher S) (license : License) (st : S) : S :=
  match cb.New with
  | none => st
  | some f => f license st

/-- Model of `(*CallbackWatcher).OnManagerStopped`: dispatch to the
`Stopped` callback when it is set, do nothing otherwise. -/
def OnManagerStopped {S : Type} (cb : CallbackWatcher S) (st : S) : S :=
  match cb.Stopped with
  | none => st
  | some f => f st

/-- C10: with an unset callback both operations return with no effect
(and dereference nothing); with a set callback each operation invokes
it exactly once, `OnNewLicense` passing the given license. -/
theorem c10_callback_dispatch {S : Type} (cb : CallbackWatcher S) (license : License) (st : S) :
    (cb.New = none → OnNewLicense cb license st = st)
    ∧ (∀ f, cb.New = some f → OnNewLicense cb license st = f license st)
    ∧ (cb.Stopped = none → OnManagerStopped cb st = st)
    ∧ (∀ g, cb.Stopped = some g → OnManagerStopped cb st = g st) := by
  refine ⟨fun h => ?_, fun f h => ?_, fun h => ?_, fun g h => ?_⟩
  · simp [OnNewLicense, h]
  · simp [OnNewLicense, h]
  · simp [OnManagerStopped, h]
  · simp [OnManagerStopped, h]

/-- Witness for C10: a watcher counting `New` invocations in a `Nat`
state with `Stopped` unset. -/
theorem c10_witness :
    OnNewLicense (S := Nat) ⟨some (fun _ n => n + 1), none⟩ ⟨"uid-1"⟩ 5 = 6
    ∧ OnManagerStopped (S := Nat) ⟨some (fun _ n => n + 1), none⟩ 5 = 5 := by
  constructor
  · rw [(c10_callback_dispatch ⟨some (fun _ n => n + 1), none⟩ ⟨"uid-1"⟩ 5).2.1
      (fun _ n => n + 1) rfl]
  · exact (c10_callback_dispatch (S := Nat) ⟨some (fun _ n => n + 1), none⟩ ⟨"uid-1"⟩ 5).2.2.1 rfl
